import Mathlib

/-!
Shallow embedding of the framegraph core of the skeleton renderer, translated
from the Rust sources: the alias registry (render/framegraph/alias/registry.rs),
the barrier plan compiler (render/framegraph/barrier.rs), the frame ring
(render/frame_ring.rs, render/frame.rs), the image manager (image/manager.rs)
and the dynamic first-use correction of the graph executor
(render/framegraph/graph.rs).  HashMap and SlotMap state is modelled with
association lists, machine integers with Nat, Vulkan bit flags with Nat
bitmasks carrying the concrete Vulkan bit values, and fallible or panicking
operations with Except and Option.
-/

namespace Skeleton

/-- Association-list lookup, modelling HashMap::get / SlotMap::get. -/
def alistGet {α β : Type} [DecidableEq α] (k : α) : List (α × β) → Option β
  | [] => none
  | (a, b) :: t => if a = k then some b else alistGet k t

/-- Association-list write, modelling HashMap::insert: the entry for the key is
replaced if present, otherwise appended. -/
def alistSet {α β : Type} [DecidableEq α] (k : α) (v : β) : List (α × β) → List (α × β)
  | [] => [(k, v)]
  | (a, b) :: t => if a = k then (k, v) :: t else (a, b) :: alistSet k v t

/-- Association-list push into a list-valued entry, modelling
HashMap::entry(k).or_insert_with(Vec::new).push(v). -/
def alistPush {α β : Type} [DecidableEq α] (k : α) (v : β) :
    List (α × List β) → List (α × List β)
  | [] => [(k, [v])]
  | (a, bs) :: t => if a = k then (a, bs ++ [v]) :: t else (a, bs) :: alistPush k v t

theorem alistGet_set_self {α β : Type} [DecidableEq α] (k : α) (v : β)
    (l : List (α × β)) : alistGet k (alistSet k v l) = some v := by
  induction l with
  | nil => simp [alistSet, alistGet]
  | cons hd t ih =>
      obtain ⟨a, b⟩ := hd
      by_cases h : a = k
      · simp [alistSet, alistGet, h]
      · simp [alistSet, alistGet, h, ih]

theorem alistGet_set_ne {α β : Type} [DecidableEq α] {k a : α} (v : β)
    (l : List (α × β)) (h : a ≠ k) : alistGet a (alistSet k v l) = alistGet a l := by
  have h' : ¬(k = a) := fun hk => h hk.symm
  induction l with
  | nil => simp [alistSet, alistGet, h']
  | cons hd t ih =>
      obtain ⟨x, b⟩ := hd
      by_cases hx : x = k
      · subst hx
        simp [alistSet, alistGet, h']
      · by_cases hax : x = a <;> simp [alistSet, alistGet, hx, hax, ih, h]

theorem alistGet_push_self {α β : Type} [DecidableEq α] (k : α) (v : β)
    (l : List (α × List β)) :
    alistGet k (alistPush k v l) = some ((alistGet k l).getD [] ++ [v]) := by
  induction l with
  | nil => simp [alistPush, alistGet]
  | cons hd t ih =>
      obtain ⟨a, bs⟩ := hd
      by_cases h : a = k
      · simp [alistPush, alistGet, h]
      · simp [alistPush, alistGet, h, ih]

theorem alistGet_push_ne {α β : Type} [DecidableEq α] {k a : α} (v : β)
    (l : List (α × List β)) (h : a ≠ k) :
    alistGet a (alistPush k v l) = alistGet a l := by
  have h' : ¬(k = a) := fun hk => h hk.symm
  induction l with
  | nil => simp [alistPush, alistGet, h']
  | cons hd t ih =>
      obtain ⟨x, bs⟩ := hd
      by_cases hx : x = k
      · subst hx
        simp [alistPush, alistGet, h']
      · by_cases hax : x = a <;> simp [alistPush, alistGet, hx, hax, ih, h]

/-! Vulkan boundary types.  ash exposes ImageLayout as an enum of constants and
the stage, access and aspect flags as bitmasks; the embedding keeps only the
layouts the sources use and carries the concrete Vulkan bit values. -/

inductive VkImageLayout : Type
  | undefined
  | colorAttachmentOptimal
  | depthAttachmentOptimal
  | presentSrcKhr
deriving DecidableEq

abbrev VkFlags := Nat

def PIPELINE_STAGE_2_NONE : VkFlags := 0
def PIPELINE_STAGE_2_TOP_OF_PIPE : VkFlags := 0x1
def PIPELINE_STAGE_2_EARLY_FRAGMENT_TESTS : VkFlags := 0x100
def PIPELINE_STAGE_2_COLOR_ATTACHMENT_OUTPUT : VkFlags := 0x400
def PIPELINE_STAGE_2_BOTTOM_OF_PIPE : VkFlags := 0x2000
def ACCESS_2_NONE : VkFlags := 0
def ACCESS_2_SHADER_WRITE : VkFlags := 0x40
def ACCESS_2_COLOR_ATTACHMENT_WRITE : VkFlags := 0x100
def ACCESS_2_DEPTH_STENCIL_ATTACHMENT_WRITE : VkFlags := 0x400
def ACCESS_2_TRANSFER_WRITE : VkFlags := 0x1000
def ACCESS_2_MEMORY_WRITE : VkFlags := 0x10000
def IMAGE_ASPECT_COLOR : VkFlags := 0x1
def IMAGE_ASPECT_DEPTH : VkFlags := 0x2

/-- Translation of is_write_access from render/framegraph/pass/mod.rs. -/
def is_write_access (flags : VkFlags) : Bool :=
  let write_flags := ACCESS_2_COLOR_ATTACHMENT_WRITE |||
    ACCESS_2_DEPTH_STENCIL_ATTACHMENT_WRITE ||| ACCESS_2_TRANSFER_WRITE |||
    ACCESS_2_SHADER_WRITE ||| ACCESS_2_MEMORY_WRITE
  flags &&& write_flags != 0

/-- Translation of the ImageAlias enum from render/framegraph/graph.rs; the
depthBuffer alias comes from the pass iteration in
render/framegraph/pass/forward.rs. -/
inductive ImageAlias : Type
  | swapchainImage
  | forwardColor
  | depthBuffer
deriving DecidableEq

/-- Translation of ImageState from render/framegraph/layouts.rs. -/
structure ImageState where
  layout : VkImageLayout
  stage : VkFlags
  access : VkFlags
deriving DecidableEq

def ImageState.UNDEFINED : ImageState :=
  ⟨.undefined, PIPELINE_STAGE_2_TOP_OF_PIPE, ACCESS_2_NONE⟩

def ImageState.COLOR_ATTACHMENT_WRITE : ImageState :=
  ⟨.colorAttachmentOptimal, PIPELINE_STAGE_2_COLOR_ATTACHMENT_OUTPUT,
    ACCESS_2_COLOR_ATTACHMENT_WRITE⟩

def ImageState.PRESENT : ImageState :=
  ⟨.presentSrcKhr, PIPELINE_STAGE_2_COLOR_ATTACHMENT_OUTPUT,
    ACCESS_2_COLOR_ATTACHMENT_WRITE⟩

/-! Barrier plan compiler, translated from render/framegraph/barrier.rs. -/

/-- Translation of TrackedImageState from render/framegraph/barrier.rs. -/
structure TrackedImageState where
  layout : VkImageLayout
  stage : VkFlags
  access : VkFlags
deriving DecidableEq

/-- Translation of ImageBarrierPrecursor from render/framegraph/pass/mod.rs. -/
structure ImageBarrierPrecursor where
  «alias» : ImageAlias
  write_access : Bool
  access_flags : VkFlags
  pipeline_stage_flags : VkFlags
  image_layout : VkImageLayout
  aspect_flags : VkFlags
deriving DecidableEq

/-- Translation of ImageBarrierDesc from render/framegraph/barrier.rs. -/
structure ImageBarrierDesc where
  «alias» : ImageAlias
  src_stage : VkFlags
  src_access : VkFlags
  old_layout : VkImageLayout
  dst_stage : VkFlags
  dst_access : VkFlags
  new_layout : VkImageLayout
  aspect_flags : VkFlags
deriving DecidableEq

/-- Shallow model of a Box of dyn RenderPass as seen by
BarrierPlan::from_passes: the id() method and the image_precursors() method. -/
structure RenderPassModel where
  id : Nat
  image_precursors : List ImageBarrierPrecursor
deriving DecidableEq

/-- Baseline entry written by the loop body of initial_states in
render/framegraph/barrier.rs: the swapchain alias starts presentation-ready,
every other alias starts undefined. -/
def baseline_state (a : ImageAlias) : TrackedImageState :=
  match a with
  | .swapchainImage =>
      ⟨.presentSrcKhr, PIPELINE_STAGE_2_BOTTOM_OF_PIPE, ACCESS_2_NONE⟩
  | _ => ⟨.undefined, PIPELINE_STAGE_2_NONE, ACCESS_2_NONE⟩

/-- Translation of initial_states from render/framegraph/barrier.rs. -/
def initial_states (aliases : List ImageAlias) :
    List (ImageAlias × TrackedImageState) :=
  aliases.foldl (fun states a => alistSet a (baseline_state a) states) []

/-- Translation of build_barrier_desc from render/framegraph/barrier.rs. -/
def build_barrier_desc (prev : Option TrackedImageState)
    (precursor : ImageBarrierPrecursor) : ImageBarrierDesc :=
  let src :=
    match prev with
    | some p => (p.stage, p.access, p.layout)
    | none => (PIPELINE_STAGE_2_NONE, ACCESS_2_NONE, VkImageLayout.undefined)
  { «alias» := precursor.«alias»
    src_stage := src.1
    src_access := src.2.1
    old_layout := src.2.2
    dst_stage := precursor.pipeline_stage_flags
    dst_access := precursor.access_flags
    new_layout := precursor.image_layout
    aspect_flags := precursor.aspect_flags }

/-- Inner loop of BarrierPlan::from_passes over one pass: for each precursor,
look up the tracked state, synthesize a descriptor into the bucket of the
owning pass id, and update the tracked state to the desired state. -/
def process_precursors (pid : Nat) (ps : List ImageBarrierPrecursor)
    (states : List (ImageAlias × TrackedImageState))
    (descs : List (Nat × List ImageBarrierDesc)) :
    List (ImageAlias × TrackedImageState) × List (Nat × List ImageBarrierDesc) :=
  match ps with
  | [] => (states, descs)
  | p :: rest =>
      let desc := build_barrier_desc (alistGet p.«alias» states) p
      process_precursors pid rest
        (alistSet p.«alias»
          ⟨p.image_layout, p.pipeline_stage_flags, p.access_flags⟩ states)
        (alistPush pid desc descs)

/-- Outer loop of BarrierPlan::from_passes over the declared pass order. -/
def process_passes (passes : List RenderPassModel)
    (states : List (ImageAlias × TrackedImageState))
    (descs : List (Nat × List ImageBarrierDesc)) :
    List (ImageAlias × TrackedImageState) × List (Nat × List ImageBarrierDesc) :=
  match passes with
  | [] => (states, descs)
  | pass :: rest =>
      let st := process_precursors pass.id pass.image_precursors states descs
      process_passes rest st.1 st.2

/-- Translation of BarrierPlan::from_passes from render/framegraph/barrier.rs,
returning the image_barrier_descs map keyed by pass id. -/
def BarrierPlan.from_passes (passes : List RenderPassModel)
    (aliases : List ImageAlias) : List (Nat × List ImageBarrierDesc) :=
  (process_passes passes (initial_states aliases) []).2

/-- Lookup of a pass bucket in the plan, modelling
image_barrier_descs.get(&pass_id) with a missing key read as no barriers. -/
def descsFor (plan : List (Nat × List ImageBarrierDesc)) (pid : Nat) :
    List ImageBarrierDesc :=
  (alistGet pid plan).getD []

theorem initial_states_foldl (a : ImageAlias) (l : List ImageAlias)
    (acc : List (ImageAlias × TrackedImageState)) :
    alistGet a (l.foldl (fun states x => alistSet x (baseline_state x) states) acc) =
      if a ∈ l then some (baseline_state a) else alistGet a acc := by
  induction l generalizing acc with
  | nil => simp
  | cons x t ih =>
      by_cases hm : a ∈ t
      · simp [List.foldl_cons, ih, hm]
      · by_cases hax : a = x
        · subst hax
          simp [List.foldl_cons, ih, hm, alistGet_set_self]
        · simp [List.foldl_cons, ih, hm, hax, alistGet_set_ne _ _ hax]

/-- C9: when the barrier plan compiler initializes its per-alias state table
over a set of known aliases, the presentation (swapchain) alias is assigned the
presentation-ready baseline (PRESENT_SRC_KHR layout at BOTTOM_OF_PIPE with no
access) and every other alias is assigned the undefined baseline. -/
theorem initial_states_assigns_baselines (aliases : List ImageAlias)
    (a : ImageAlias) (h : a ∈ aliases) :
    alistGet a (initial_states aliases) =
      some (if a = ImageAlias.swapchainImage
        then ⟨.presentSrcKhr, PIPELINE_STAGE_2_BOTTOM_OF_PIPE, ACCESS_2_NONE⟩
        else ⟨.undefined, PIPELINE_STAGE_2_NONE, ACCESS_2_NONE⟩) := by
  rw [initial_states, initial_states_foldl, if_pos h]
  cases a <;> rfl

theorem initial_states_assigns_baselines_witness :
    alistGet ImageAlias.swapchainImage
        (initial_states [ImageAlias.swapchainImage, ImageAlias.forwardColor]) =
        some ⟨.presentSrcKhr, PIPELINE_STAGE_2_BOTTOM_OF_PIPE, ACCESS_2_NONE⟩ ∧
      alistGet ImageAlias.forwardColor
        (initial_states [ImageAlias.swapchainImage, ImageAlias.forwardColor]) =
        some ⟨.undefined, PIPELINE_STAGE_2_NONE, ACCESS_2_NONE⟩ :=
  ⟨initial_states_assigns_baselines _ _ (by decide),
    initial_states_assigns_baselines _ _ (by decide)⟩

/-- C3: for a pass list of A then B where both declare a requirement on the
same alias X, the static barrier plan transition for the access of B to X has
its old state (source stage, source access, old layout) equal to the state the
requirement of A left X in, not the baseline of X. -/
theorem barrier_plan_uses_tracked_state (aliases : List ImageAlias)
    (X : ImageAlias) (pA pB : ImageBarrierPrecursor) (idA idB : Nat)
    (hne : idA ≠ idB) (hA : pA.«alias» = X) (hB : pB.«alias» = X) :
    descsFor
        (BarrierPlan.from_passes [⟨idA, [pA]⟩, ⟨idB, [pB]⟩] aliases) idB =
      [{ «alias» := X
         src_stage := pA.pipeline_stage_flags
         src_access := pA.access_flags
         old_layout := pA.image_layout
         dst_stage := pB.pipeline_stage_flags
         dst_access := pB.access_flags
         new_layout := pB.image_layout
         aspect_flags := pB.aspect_flags }] := by
  subst hA
  simp [BarrierPlan.from_passes, process_passes, process_precursors, descsFor,
    hB, alistGet_set_self, build_barrier_desc, alistPush, alistGet, hne]

theorem barrier_plan_uses_tracked_state_witness :
    descsFor
        (BarrierPlan.from_passes
          [⟨1, [{ «alias» := .forwardColor
                  write_access := true
                  access_flags := ACCESS_2_COLOR_ATTACHMENT_WRITE
                  pipeline_stage_flags := PIPELINE_STAGE_2_COLOR_ATTACHMENT_OUTPUT
                  image_layout := .colorAttachmentOptimal
                  aspect_flags := IMAGE_ASPECT_COLOR }]⟩,
           ⟨2, [{ «alias» := .forwardColor
                  write_access := false
                  access_flags := ACCESS_2_NONE
                  pipeline_stage_flags := PIPELINE_STAGE_2_EARLY_FRAGMENT_TESTS
                  image_layout := .depthAttachmentOptimal
                  aspect_flags := IMAGE_ASPECT_COLOR }]⟩]
          [.swapchainImage, .forwardColor]) 2 =
      [{ «alias» := .forwardColor
         src_stage := PIPELINE_STAGE_2_COLOR_ATTACHMENT_OUTPUT
         src_access := ACCESS_2_COLOR_ATTACHMENT_WRITE
         old_layout := .colorAttachmentOptimal
         dst_stage := PIPELINE_STAGE_2_EARLY_FRAGMENT_TESTS
         dst_access := ACCESS_2_NONE
         new_layout := .depthAttachmentOptimal
         aspect_flags := IMAGE_ASPECT_COLOR }] :=
  barrier_plan_uses_tracked_state _ _ _ _ _ _ (by decide) rfl rfl

/-- ForwardPass as seen by the barrier compiler: pass id 1 and the barrier
precursors derived from its two image requirements (depth buffer write, then
swapchain color write), from render/framegraph/pass/forward.rs. -/
def forward_pass : RenderPassModel :=
  { id := 1
    image_precursors :=
      [ { «alias» := .depthBuffer
          write_access := is_write_access ACCESS_2_DEPTH_STENCIL_ATTACHMENT_WRITE
          access_flags := ACCESS_2_DEPTH_STENCIL_ATTACHMENT_WRITE
          pipeline_stage_flags := PIPELINE_STAGE_2_EARLY_FRAGMENT_TESTS
          image_layout := .depthAttachmentOptimal
          aspect_flags := IMAGE_ASPECT_DEPTH }
      , { «alias» := .swapchainImage
          write_access := is_write_access ACCESS_2_COLOR_ATTACHMENT_WRITE
          access_flags := ACCESS_2_COLOR_ATTACHMENT_WRITE
          pipeline_stage_flags := PIPELINE_STAGE_2_COLOR_ATTACHMENT_OUTPUT
          image_layout := .colorAttachmentOptimal
          aspect_flags := IMAGE_ASPECT_COLOR } ] }

/-- CompositionPass as seen by the barrier compiler: pass id 1 and the barrier
precursors derived from its two image requirements (swapchain color write, then
forward color write), from render/framegraph/pass/composition.rs. -/
def composition_pass : RenderPassModel :=
  { id := 1
    image_precursors :=
      [ { «alias» := .swapchainImage
          write_access := is_write_access ACCESS_2_COLOR_ATTACHMENT_WRITE
          access_flags := ACCESS_2_COLOR_ATTACHMENT_WRITE
          pipeline_stage_flags := PIPELINE_STAGE_2_COLOR_ATTACHMENT_OUTPUT
          image_layout := .colorAttachmentOptimal
          aspect_flags := IMAGE_ASPECT_COLOR }
      , { «alias» := .forwardColor
          write_access := is_write_access ImageState.COLOR_ATTACHMENT_WRITE.access
          access_flags := ImageState.COLOR_ATTACHMENT_WRITE.access
          pipeline_stage_flags := ImageState.COLOR_ATTACHMENT_WRITE.stage
          image_layout := ImageState.COLOR_ATTACHMENT_WRITE.layout
          aspect_flags := IMAGE_ASPECT_COLOR } ] }

/-- C4 fails on the code: ForwardPass::id and CompositionPass::id both return
1, so for the actual pass list built in render/thread.rs the plan bucket keyed
by the id of ForwardPass also holds the transitions synthesized from the
requirements of CompositionPass: it contains 4 descriptors for the 2 declared
requirements of ForwardPass, including one on the forwardColor alias that
ForwardPass never declares. -/
theorem barrier_plan_pass_id_collision :
    forward_pass.id = composition_pass.id ∧
    forward_pass.image_precursors.length = 2 ∧
    (descsFor
        (BarrierPlan.from_passes [forward_pass, composition_pass]
          [.swapchainImage, .forwardColor, .depthBuffer])
        forward_pass.id).length = 4 ∧
    (descsFor
        (BarrierPlan.from_passes [forward_pass, composition_pass]
          [.swapchainImage, .forwardColor, .depthBuffer])
        forward_pass.id).map (fun d => d.«alias») =
      [.depthBuffer, .swapchainImage, .swapchainImage, .forwardColor] := by
  refine ⟨rfl, rfl, ?_, ?_⟩ <;> decide

/-! Graph executor first-use correction, translated from
render/framegraph/graph.rs (FrameGraph::execute, GraphFirstUse). -/

/-- Translation of FrameIndex from image/manager.rs. -/
inductive FrameIndex : Type
  | frame (i : Nat)
  | swapchain (i : Nat)
deriving DecidableEq

/-- Translation of FrameIndex::raw. -/
def FrameIndex.raw : FrameIndex → Nat
  | .frame i => i
  | .swapchain i => i

/-- Translation of CompositeImageKey from image/manager.rs; slotmap keys are
modelled as Nat. -/
inductive CompositeImageKey : Type
  | global (k : Nat)
  | perFrame (k : Nat)
deriving DecidableEq

/-- Translation of PhysicalImageInstance from render/framegraph/graph.rs. -/
inductive PhysicalImageInstance : Type
  | frame (fi : FrameIndex)
  | swapchain (i : Nat)
  | global
deriving DecidableEq

/-- Translation of the PhysicalImageKey pair from render/framegraph/graph.rs. -/
abbrev PhysicalImageKey := CompositeImageKey × PhysicalImageInstance

/-- Translation of GraphFirstUse from render/framegraph/graph.rs; the HashSet
is modelled as a list of the keys seen so far. -/
structure GraphFirstUse where
  seen : List PhysicalImageKey
deriving DecidableEq

/-- Translation of GraphFirstUse::is_first_use: HashSet::insert returns true
exactly when the key was not already present, and always leaves the key in the
set. -/
def GraphFirstUse.is_first_use (g : GraphFirstUse) (key : PhysicalImageKey) :
    Bool × GraphFirstUse :=
  if key ∈ g.seen then (false, g) else (true, ⟨key :: g.seen⟩)

/-- Translation of FrameIndexKind from render/framegraph/image.rs. -/
inductive FrameIndexKind : Type
  | frame
  | swapchain
deriving DecidableEq

/-- Translation of ImageIndexing from render/framegraph/image.rs. -/
inductive ImageIndexing : Type
  | global
  | perFrame (kind : FrameIndexKind)
deriving DecidableEq

/-- Translation of vk::ImageSubresourceRange. -/
structure VkImageSubresourceRange where
  aspect_mask : VkFlags
  base_mip_level : Nat
  level_count : Nat
  base_array_layer : Nat
  layer_count : Nat
deriving DecidableEq

/-- Barrier descriptor as consumed by FrameGraph::execute in
render/framegraph/graph.rs: alias, indexing kind, the static old and new
states recorded by the plan, and the subresource range. -/
structure ExecBarrierDesc where
  «alias» : ImageAlias
  indexing : ImageIndexing
  old_state : ImageState
  new_state : ImageState
  subresource_range : VkImageSubresourceRange
deriving DecidableEq

/-- Physical-instance selection of FrameGraph::execute: Global indexing maps
to the global instance, per-frame indexing to the frame slot index, and
swapchain indexing to the presentation image index of the current frame. -/
def instance_for (indexing : ImageIndexing)
    (frame_index swapchain_image_index : Nat) : PhysicalImageInstance :=
  match indexing with
  | .global => .global
  | .perFrame .frame => .frame (.frame frame_index)
  | .perFrame .swapchain => .swapchain swapchain_image_index

/-- First-use correction step of FrameGraph::execute: resolve the physical
instance, query and update the first-use set, and override the static old
state with the undefined baseline exactly on first use. -/
def effective_transition (g : GraphFirstUse) (ckey : CompositeImageKey)
    (desc : ExecBarrierDesc) (frame_index swapchain_image_index : Nat) :
    ImageState × GraphFirstUse :=
  let inst := instance_for desc.indexing frame_index swapchain_image_index
  let fu := g.is_first_use (ckey, inst)
  (if fu.1 then ImageState.UNDEFINED else desc.old_state, fu.2)

/-- C1: for a physical resource instance (composite key plus frame-slot,
presentation-image or global instance) never previously used, the effective
old state of the emitted transition is the undefined baseline regardless of
the old state the static plan recorded; after the first use the recorded old
state is used; the first-use set of one instance is untouched by other
instances, and distinct frame slots or presentation image indices are
distinct instances. -/
theorem first_use_overrides_static_old_state (g : GraphFirstUse)
    (ckey : CompositeImageKey) (desc : ExecBarrierDesc) (fi si : Nat) :
    ((ckey, instance_for desc.indexing fi si) ∉ g.seen →
        (effective_transition g ckey desc fi si).1 = ImageState.UNDEFINED ∧
        (effective_transition (effective_transition g ckey desc fi si).2
            ckey desc fi si).1 = desc.old_state) ∧
    ((ckey, instance_for desc.indexing fi si) ∈ g.seen →
        (effective_transition g ckey desc fi si).1 = desc.old_state) ∧
    (∀ k2 : PhysicalImageKey, k2 ≠ (ckey, instance_for desc.indexing fi si) →
        (k2 ∈ (effective_transition g ckey desc fi si).2.seen ↔ k2 ∈ g.seen)) ∧
    (∀ i j si1 si2 : Nat, i ≠ j →
        instance_for (ImageIndexing.perFrame .frame) i si1 ≠
          instance_for (ImageIndexing.perFrame .frame) j si2) ∧
    (∀ fi1 fi2 i j : Nat, i ≠ j →
        instance_for (ImageIndexing.perFrame .swapchain) fi1 i ≠
          instance_for (ImageIndexing.perFrame .swapchain) fi2 j) := by
  refine ⟨fun h => ⟨?_, ?_⟩, fun h => ?_, fun k2 hk => ?_, ?_, ?_⟩
  · simp [effective_transition, GraphFirstUse.is_first_use, h]
  · simp [effective_transition, GraphFirstUse.is_first_use, h, List.mem_cons]
  · simp [effective_transition, GraphFirstUse.is_first_use, h]
  · by_cases h : (ckey, instance_for desc.indexing fi si) ∈ g.seen
    · simp [effective_transition, GraphFirstUse.is_first_use, h]
    · simp [effective_transition, GraphFirstUse.is_first_use, h,
        List.mem_cons, hk]
  · intro i j si1 si2 hij
    simp [instance_for, hij]
  · intro fi1 fi2 i j hij
    simp [instance_for, hij]

/-- Concrete barrier descriptor used to instantiate the first-use theorem. -/
def demo_exec_desc : ExecBarrierDesc :=
  { «alias» := .forwardColor
    indexing := .perFrame .frame
    old_state := ImageState.PRESENT
    new_state := ImageState.COLOR_ATTACHMENT_WRITE
    subresource_range := ⟨IMAGE_ASPECT_COLOR, 0, 1, 0, 1⟩ }

theorem first_use_overrides_static_old_state_witness :
    ((effective_transition ⟨[]⟩ (.perFrame 0) demo_exec_desc 0 0).1 =
        ImageState.UNDEFINED ∧
      (effective_transition
          (effective_transition ⟨[]⟩ (.perFrame 0) demo_exec_desc 0 0).2
          (.perFrame 0) demo_exec_desc 0 0).1 = demo_exec_desc.old_state) ∧
    (effective_transition
        ⟨[(CompositeImageKey.perFrame 0,
            PhysicalImageInstance.frame (.frame 0))]⟩
        (.perFrame 0) demo_exec_desc 0 0).1 = demo_exec_desc.old_state :=
  ⟨(first_use_overrides_static_old_state ⟨[]⟩ (.perFrame 0) demo_exec_desc
      0 0).1 (by decide),
    (first_use_overrides_static_old_state
      ⟨[(CompositeImageKey.perFrame 0,
          PhysicalImageInstance.frame (.frame 0))]⟩
      (.perFrame 0) demo_exec_desc 0 0).2.1 (by decide)⟩

/-! Frame ring, translated from render/frame_ring.rs and render/frame.rs.  The
GPU completion fence of a frame slot is abstracted to a flag that is true
while previously submitted work is unresolved and false once signaled.
Frame::wait calls wait_for_fences with no timeout and returns only once the
fence has signaled, so its post-state has the flag cleared; queue submission
(render/submit.rs) resets and re-arms the fence of the slot most recently
acquired, setting the flag. -/

/-- Translation of the Frame fields of render/frame.rs that the ring touches:
the slot index, the completion fence, and the frame number stamped by
acquire. -/
structure FrameModel where
  index : Nat
  fence_in_flight : Bool
  number : Nat
deriving DecidableEq

/-- Translation of Frame::wait from render/frame.rs. -/
def FrameModel.wait (f : FrameModel) : FrameModel :=
  { f with fence_in_flight := false }

/-- Translation of FrameRing from render/frame_ring.rs. -/
structure FrameRing where
  frames : List FrameModel
  index : Nat
  number : Nat
deriving DecidableEq

/-- In-place update of one list element, modelling a &mut access to
self.frames[self.index]. -/
def listModify {α : Type} (f : α → α) : Nat → List α → List α
  | _, [] => []
  | 0, x :: t => f x :: t
  | n + 1, x :: t => x :: listModify f n t

/-- Translation of FrameRing::acquire from render/frame_ring.rs: stamp the
frame number, wait for the completion fence of the slot about to be reused,
advance the ring cursor modulo the slot count, and return the slot position. -/
def FrameRing.acquire (r : FrameRing) : FrameRing × Nat :=
  let len := r.frames.length
  let s := r.index
  let frames :=
    listModify (fun f => FrameModel.wait { f with number := r.number }) s r.frames
  ({ frames := frames, index := (s + 1) % len, number := r.number + 1 }, s)

/-- Observable events of the ring: a completed fence wait on a slot, the
return of a slot from acquire, and a queue submission arming the fence of a
slot. -/
inductive RingEv : Type
  | wait (s : Nat)
  | ret (s : Nat)
  | submitted (s : Nat)
deriving DecidableEq

/-- Operations the render thread performs against the ring each frame. -/
inductive RingOp : Type
  | acquire
  | submit
deriving DecidableEq

/-- Ring plus the slot most recently returned by acquire, which is the slot a
subsequent queue submission arms. -/
structure RingSys where
  ring : FrameRing
  last : Option Nat
deriving DecidableEq

def stepOp (st : RingSys) : RingOp → RingSys × List RingEv
  | .acquire =>
      let rs := st.ring.acquire
      ({ ring := rs.1, last := some rs.2 }, [RingEv.wait rs.2, RingEv.ret rs.2])
  | .submit =>
      match st.last with
      | none => (st, [])
      | some s =>
          ({ st with
              ring := { st.ring with
                frames :=
                  listModify (fun f => { f with fence_in_flight := true }) s
                    st.ring.frames } },
            [RingEv.submitted s])

def runOps (st : RingSys) : List RingOp → RingSys × List RingEv
  | [] => (st, [])
  | op :: rest =>
      let se := stepOp st op
      let fr := runOps se.1 rest
      (fr.1, se.2 ++ fr.2)

/-- Number of slots whose completion fence is still unresolved. -/
def countInFlight (r : FrameRing) : Nat :=
  (r.frames.filter (fun f => f.fence_in_flight)).length

/-- Shape of every event trace the ring can produce: acquire contributes a
completed wait immediately followed by the return of the same slot, and
submission contributes a single submitted event. -/
inductive GoodTrace : List RingEv → Prop
  | nil : GoodTrace []
  | block (s : Nat) (tr : List RingEv) : GoodTrace tr →
      GoodTrace (RingEv.wait s :: RingEv.ret s :: tr)
  | sub (s : Nat) (tr : List RingEv) : GoodTrace tr →
      GoodTrace (RingEv.submitted s :: tr)

theorem runOps_goodTrace (ops : List RingOp) (st : RingSys) :
    GoodTrace (runOps st ops).2 := by
  induction ops generalizing st with
  | nil => exact GoodTrace.nil
  | cons op rest ih =>
      cases op with
      | acquire => simpa [runOps, stepOp] using GoodTrace.block _ _ (ih _)
      | submit =>
          cases hl : st.last with
          | none => simpa [runOps, stepOp, hl] using ih _
          | some s => simpa [runOps, stepOp, hl] using GoodTrace.sub _ _ (ih _)

theorem goodTrace_ret_preceded {tr : List RingEv} (h : GoodTrace tr) :
    ∀ l₁ s l₂, tr = l₁ ++ RingEv.ret s :: l₂ →
      ∃ l₀, l₁ = l₀ ++ [RingEv.wait s] := by
  induction h with
  | nil =>
      intro l₁ s l₂ heq
      simp at heq
  | block s' tr' htr ih =>
      intro l₁ s l₂ heq
      cases l₁ with
      | nil => simp at heq
      | cons a l₁' =>
          cases l₁' with
          | nil =>
              simp at heq
              obtain ⟨ha, hs, -⟩ := heq
              exact ⟨[], by simp [← ha, hs]⟩
          | cons b l₁'' =>
              simp at heq
              obtain ⟨ha, hb, htl⟩ := heq
              obtain ⟨l₀, hl₀⟩ := ih l₁'' s l₂ htl
              exact ⟨RingEv.wait s' :: RingEv.ret s' :: l₀,
                by simp [← ha, ← hb, hl₀]⟩
  | sub s' tr' htr ih =>
      intro l₁ s l₂ heq
      cases l₁ with
      | nil => simp at heq
      | cons a l₁' =>
          simp at heq
          obtain ⟨ha, htl⟩ := heq
          obtain ⟨l₀, hl₀⟩ := ih l₁' s l₂ htl
          exact ⟨RingEv.submitted s' :: l₀, by simp [← ha, hl₀]⟩

theorem goodTrace_wait_between {tr : List RingEv} (h : GoodTrace tr)
    (l₁ l₂ l₃ : List RingEv) (s : Nat)
    (heq : tr = l₁ ++ RingEv.ret s :: (l₂ ++ RingEv.ret s :: l₃)) :
    RingEv.wait s ∈ l₂ := by
  have h2 : tr = (l₁ ++ RingEv.ret s :: l₂) ++ RingEv.ret s :: l₃ := by
    simp [heq]
  obtain ⟨l₀, hl₀⟩ := goodTrace_ret_preceded h _ s _ h2
  rcases List.eq_nil_or_concat l₂ with hnil | ⟨l₂', w, hw⟩
  · subst hnil
    have hlen : l₁.length = l₀.length := by
      have := congrArg List.length hl₀
      simpa using this
    have hlast := (List.append_inj hl₀ hlen).2
    simp at hlast
  · subst hw
    have hl₀2 : (l₁ ++ RingEv.ret s :: l₂') ++ [w] = l₀ ++ [RingEv.wait s] := by
      simpa using hl₀
    have hlen : (l₁ ++ RingEv.ret s :: l₂').length = l₀.length := by
      have h3 := congrArg List.length hl₀2
      simp at h3 ⊢
      omega
    have hlast := (List.append_inj hl₀2 hlen).2
    simp at hlast
    simp [hlast]

theorem length_listModify {α : Type} (f : α → α) (n : Nat) (l : List α) :
    (listModify f n l).length = l.length := by
  induction l generalizing n with
  | nil => cases n <;> rfl
  | cons x t ih =>
      cases n with
      | zero => simp [listModify]
      | succ m => simp [listModify, ih]

theorem get?_listModify_self {α : Type} (f : α → α) (n : Nat) (l : List α) :
    (listModify f n l).get? n = (l.get? n).map f := by
  induction l generalizing n with
  | nil => cases n <;> rfl
  | cons x t ih =>
      cases n with
      | zero => rfl
      | succ m => simpa [listModify] using ih m

theorem ring_length_stepOp (st : RingSys) (op : RingOp) :
    (stepOp st op).1.ring.frames.length = st.ring.frames.length := by
  cases op with
  | acquire => simp [stepOp, FrameRing.acquire, length_listModify]
  | submit => cases hl : st.last <;> simp [stepOp, hl, length_listModify]

theorem ring_length_runOps (ops : List RingOp) (st : RingSys) :
    (runOps st ops).1.ring.frames.length = st.ring.frames.length := by
  induction ops generalizing st with
  | nil => rfl
  | cons op rest ih =>
      simp only [runOps]
      rw [ih, ring_length_stepOp]

theorem acquire_clears_fence (r : FrameRing) (h : r.index < r.frames.length) :
    ((r.acquire.1.frames.get? r.acquire.2).map FrameModel.fence_in_flight) =
      some false := by
  simp only [FrameRing.acquire]
  rw [get?_listModify_self]
  cases hg : r.frames.get? r.index with
  | none => exact absurd h (Nat.not_lt.mpr (List.get?_eq_none.mp hg))
  | some f => simp [FrameModel.wait]

/-- C2: in every event trace the ring can produce, each return of a slot from
acquire is immediately preceded by a completed fence wait on that slot, so
between two returns of the same slot a completed fence wait on it always
occurs; the number of slots with an unresolved in-flight fence never exceeds
the slot count N; and the slot acquire returns has its fence resolved. -/
theorem frame_ring_acquire_discipline (st : RingSys) (ops : List RingOp) :
    (∀ l₁ l₂ l₃ s, (runOps st ops).2 =
        l₁ ++ RingEv.ret s :: (l₂ ++ RingEv.ret s :: l₃) →
        RingEv.wait s ∈ l₂) ∧
    (∀ l₁ s l₂, (runOps st ops).2 = l₁ ++ RingEv.ret s :: l₂ →
        ∃ l₀, l₁ = l₀ ++ [RingEv.wait s]) ∧
    countInFlight (runOps st ops).1.ring ≤ st.ring.frames.length ∧
    (st.ring.index < st.ring.frames.length →
      ((st.ring.acquire.1.frames.get? st.ring.acquire.2).map
          FrameModel.fence_in_flight) = some false) := by
  refine ⟨?_, ?_, ?_, ?_⟩
  · intro l₁ l₂ l₃ s heq
    exact goodTrace_wait_between (runOps_goodTrace ops st) l₁ l₂ l₃ s heq
  · intro l₁ s l₂ heq
    exact goodTrace_ret_preceded (runOps_goodTrace ops st) l₁ s l₂ heq
  · have h1 : countInFlight (runOps st ops).1.ring ≤
        (runOps st ops).1.ring.frames.length := List.length_filter_le _ _
    rwa [ring_length_runOps] at h1
  · intro h
    exact acquire_clears_fence st.ring h

/-- Concrete two-slot ring in its initial state: fences are created already
signaled (create_fence with the signaled flag in render/frame.rs). -/
def demo_ring : RingSys :=
  { ring := { frames := [⟨0, false, 0⟩, ⟨1, false, 0⟩], index := 0, number := 0 }
    last := none }

theorem frame_ring_acquire_discipline_witness :
    RingEv.wait 0 ∈
        [RingEv.submitted 0, RingEv.wait 1, RingEv.ret 1, RingEv.submitted 1,
          RingEv.wait 0] ∧
      countInFlight
          (runOps demo_ring
            [.acquire, .submit, .acquire, .submit, .acquire]).1.ring ≤
        demo_ring.ring.frames.length ∧
      ((demo_ring.ring.acquire.1.frames.get? demo_ring.ring.acquire.2).map
          FrameModel.fence_in_flight) = some false :=
  ⟨(frame_ring_acquire_discipline demo_ring
        [.acquire, .submit, .acquire, .submit, .acquire]).1
      [RingEv.wait 0]
      [RingEv.submitted 0, RingEv.wait 1, RingEv.ret 1, RingEv.submitted 1,
        RingEv.wait 0]
      [] 0 (by decide),
    (frame_ring_acquire_discipline demo_ring
        [.acquire, .submit, .acquire, .submit, .acquire]).2.2.1,
    (frame_ring_acquire_discipline demo_ring []).2.2.2 (by decide)⟩

/-! Image manager, translated from image/manager.rs.  A SlotMap is modelled as
a fresh-key counter plus an association list; Image::owned (an
Option of OwnedImageInfo in the source) is collapsed to a Bool recording
whether the registry owns the backing allocation, and the VkImage handle an
allocation returns is modelled by the slotmap key it is stored under (external
registration keeps the caller-supplied handle).  The expect calls of the
lookup paths, which panic on an invalid key or index, are modelled as none. -/

/-- Translation of ImageLifetime from image/spec.rs, restricted to the two
variants ImageManager::create_image matches on. -/
inductive ImageLifetime : Type
  | global
  | perFrame
deriving DecidableEq

/-- Translation of the Image resource record from image/resource.rs. -/
structure Image where
  vk_image : Nat
  owned : Bool
deriving DecidableEq

/-- Translation of the ImageView resource record from image/resource.rs. -/
structure ImageView where
  vk_image_view : Nat
  owned : Bool
deriving DecidableEq

/-- Translation of CompositeImageViewKey from image/manager.rs. -/
inductive CompositeImageViewKey : Type
  | global (k : Nat)
  | perFrame (k : Nat)
deriving DecidableEq

structure SlotMap (α : Type) where
  nextKey : Nat
  entries : List (Nat × α)
deriving DecidableEq

def SlotMap.empty {α : Type} : SlotMap α := ⟨0, []⟩

def SlotMap.insert {α : Type} (m : SlotMap α) (v : α) : SlotMap α × Nat :=
  (⟨m.nextKey + 1, m.entries ++ [(m.nextKey, v)]⟩, m.nextKey)

def SlotMap.get {α : Type} (m : SlotMap α) (k : Nat) : Option α :=
  alistGet k m.entries

/-- Removal of the first entry for a key, modelling SlotMap::remove. -/
def alistRemove {α β : Type} [DecidableEq α] (k : α) :
    List (α × β) → List (α × β)
  | [] => []
  | (a, b) :: t => if a = k then t else (a, b) :: alistRemove k t

def SlotMap.remove {α : Type} (m : SlotMap α) (k : Nat) :
    Option α × SlotMap α :=
  (alistGet k m.entries, ⟨m.nextKey, alistRemove k m.entries⟩)

/-- Slotmap key-freshness invariant: every stored key was allocated below the
fresh-key counter. -/
def SlotMap.Wf {α : Type} (m : SlotMap α) : Prop :=
  ∀ p ∈ m.entries, p.1 < m.nextKey

instance {α : Type} (m : SlotMap α) : Decidable m.Wf := by
  unfold SlotMap.Wf
  infer_instance

/-- Translation of the ImageManager state from image/manager.rs. -/
structure ImageManager where
  images : SlotMap Image
  image_views : SlotMap ImageView
  logical_images : SlotMap (List Nat)
  logical_image_views : SlotMap (List Nat)
deriving DecidableEq

/-- Translation of ImageManager::default. -/
def ImageManager.default : ImageManager :=
  ⟨SlotMap.empty, SlotMap.empty, SlotMap.empty, SlotMap.empty⟩

/-- Translation of ImageManager::image_global; the expect on an invalid key is
modelled as none. -/
def ImageManager.image_global (m : ImageManager) (k : Nat) : Option Image :=
  m.images.get k

/-- Translation of ImageManager::image_per_frame: look up the per-frame key
vector of the logical key, index it with the raw frame index, and resolve the
chosen image key; the expect on an invalid key or index is modelled as none. -/
def ImageManager.image_per_frame (m : ImageManager) (k : Nat)
    (frame : FrameIndex) : Option Image :=
  ((m.logical_images.get k).bind (fun v => v.get? frame.raw)).bind
    m.image_global

/-- Translation of ImageManager::resolve_image. -/
def ImageManager.resolve_image (m : ImageManager) (key : CompositeImageKey)
    (frame : FrameIndex) : Option Image :=
  match key with
  | .global k => m.image_global k
  | .perFrame k => m.image_per_frame k frame

/-- Loop of the PerFrame arm of ImageManager::create_image: allocate one owned
image per replica and collect the slot keys in creation order. -/
def insertImages (m : SlotMap Image) : Nat → SlotMap Image × List Nat
  | 0 => (m, [])
  | n + 1 =>
      let r := m.insert { vk_image := m.nextKey, owned := true }
      let rest := insertImages r.1 n
      (rest.1, r.2 :: rest.2)

/-- Translation of ResizePolicy from image/spec.rs. -/
inductive ResizePolicy : Type
  | swapchain
  | fixed
deriving DecidableEq

/-- Fields of ImageSpec from image/spec.rs used by create_image; vk::Format,
sample counts and usage flags are carried as plain numbers and the debug name
is omitted as pure diagnostics. -/
structure ImageSpec where
  format : Nat
  extent_width : Nat
  extent_height : Nat
  usage : VkFlags
  mips : Nat
  layers : Nat
  samples : Nat
  resize_policy : ResizePolicy
  lifetime : ImageLifetime
  initial_layout : VkImageLayout
deriving DecidableEq

/-- Translation of ImageManager::create_image from image/manager.rs: a Global
spec allocates one owned image, a PerFrame spec allocates frame_count owned
replicas and records their keys under a fresh logical key. -/
def ImageManager.create_image (m : ImageManager) (spec : ImageSpec)
    (frame_count : Nat) : ImageManager × CompositeImageKey :=
  match spec.lifetime with
  | .global =>
      let r := m.images.insert { vk_image := m.images.nextKey, owned := true }
      ({ m with images := r.1 }, .global r.2)
  | .perFrame =>
      let r := insertImages m.images frame_count
      let lk := m.logical_images.insert r.2
      ({ m with images := r.1, logical_images := lk.1 }, .perFrame lk.2)

/-- Loop of register_external_per_frame over the supplied image handles:
insert each as an unowned entry. -/
def insertExternalImages (m : SlotMap Image) :
    List Nat → SlotMap Image × List Nat
  | [] => (m, [])
  | h :: t =>
      let r := m.insert { vk_image := h, owned := false }
      let rest := insertExternalImages r.1 t
      (rest.1, r.2 :: rest.2)

/-- Loop of register_external_per_frame over the supplied view handles:
insert each as an unowned entry. -/
def insertExternalViews (m : SlotMap ImageView) :
    List Nat → SlotMap ImageView × List Nat
  | [] => (m, [])
  | h :: t =>
      let r := m.insert { vk_image_view := h, owned := false }
      let rest := insertExternalViews r.1 t
      (rest.1, r.2 :: rest.2)

/-- Translation of ImageManager::register_external_per_frame from
image/manager.rs: store the foreign handles as unowned entries and record
their keys under fresh per-frame logical keys. -/
def ImageManager.register_external_per_frame (m : ImageManager)
    (imgs views : List Nat) :
    ImageManager × CompositeImageKey × CompositeImageViewKey :=
  let ri := insertExternalImages m.images imgs
  let rv := insertExternalViews m.image_views views
  let li := m.logical_images.insert ri.2
  let lv := m.logical_image_views.insert rv.2
  ({ m with
      images := ri.1
      image_views := rv.1
      logical_images := li.1
      logical_image_views := lv.1 },
    .perFrame li.2, .perFrame lv.2)

/-- Inner loop of cleanup_per_frames over the key list of one drained logical
entry: remove every key from the pool, and destroy the resource exactly when
it was present and owns its backing allocation; returns the pool and the
destroyed resources in order. -/
def removeAndDestroy {α : Type} (ownedOf : α → Bool) (pool : SlotMap α) :
    List Nat → SlotMap α × List α
  | [] => (pool, [])
  | k :: rest =>
      let r := pool.remove k
      let out := removeAndDestroy ownedOf r.2 rest
      match r.1 with
      | some x => if ownedOf x then (out.1, x :: out.2) else (out.1, out.2)
      | none => (out.1, out.2)

/-- Drain of a logical map in cleanup_per_frames: process each logical entry
in order against the shared pool. -/
def drainDestroy {α : Type} (ownedOf : α → Bool) (pool : SlotMap α) :
    List (Nat × List Nat) → SlotMap α × List α
  | [] => (pool, [])
  | e :: rest =>
      let r := removeAndDestroy ownedOf pool e.2
      let out := drainDestroy ownedOf r.1 rest
      (out.1, r.2 ++ out.2)

/-- Translation of ImageManager::cleanup_per_frames from image/manager.rs:
drain the logical view map destroying owned views, then drain the logical
image map destroying owned images; returns the manager, the destroyed views
and the destroyed images. -/
def ImageManager.cleanup_per_frames (m : ImageManager) :
    ImageManager × List ImageView × List Image :=
  let rv := drainDestroy ImageView.owned m.image_views
    m.logical_image_views.entries
  let ri := drainDestroy Image.owned m.images m.logical_images.entries
  ({ images := ri.1
     image_views := rv.1
     logical_images := ⟨m.logical_images.nextKey, []⟩
     logical_image_views := ⟨m.logical_image_views.nextKey, []⟩ },
    rv.2, ri.2)

/-- Number of keys in a key list that resolve to a pool entry owning its
backing allocation: the owned per-frame instances a drain will destroy. -/
def owned_count {α : Type} (ownedOf : α → Bool) (pool : SlotMap α)
    (keys : List Nat) : Nat :=
  (keys.filter (fun k =>
    match pool.get k with
    | some x => ownedOf x
    | none => false)).length

theorem alistGet_remove_ne {α β : Type} [DecidableEq α] {k a : α}
    (l : List (α × β)) (h : a ≠ k) :
    alistGet a (alistRemove k l) = alistGet a l := by
  have h' : ¬(k = a) := fun he => h he.symm
  induction l with
  | nil => rfl
  | cons hd t ih =>
      obtain ⟨x, b⟩ := hd
      by_cases hx : x = k
      · subst hx
        simp [alistRemove, alistGet, h']
      · by_cases hxa : x = a <;>
          simp [alistRemove, alistGet, hx, hxa, ih, h]

theorem removeAndDestroy_owned {α : Type} (ownedOf : α → Bool)
    (pool : SlotMap α) (keys : List Nat) (x : α)
    (hx : x ∈ (removeAndDestroy ownedOf pool keys).2) : ownedOf x = true := by
  induction keys generalizing pool with
  | nil => simp [removeAndDestroy] at hx
  | cons k rest ih =>
      simp only [removeAndDestroy] at hx
      cases hr : (pool.remove k).1 with
      | none =>
          simp only [hr] at hx
          exact ih _ hx
      | some y =>
          cases ho : ownedOf y with
          | true =>
              simp [hr, ho] at hx
              rcases hx with hxy | hx2
              · rw [hxy]; exact ho
              · exact ih _ hx2
          | false =>
              simp [hr, ho] at hx
              exact ih _ hx

theorem drainDestroy_owned {α : Type} (ownedOf : α → Bool)
    (pool : SlotMap α) (entries : List (Nat × List Nat)) (x : α)
    (hx : x ∈ (drainDestroy ownedOf pool entries).2) : ownedOf x = true := by
  induction entries generalizing pool with
  | nil => simp [drainDestroy] at hx
  | cons e rest ih =>
      simp only [drainDestroy] at hx
      rcases List.mem_append.mp hx with h1 | h2
      · exact removeAndDestroy_owned _ _ _ _ h1
      · exact ih _ h2

theorem owned_count_congr {α : Type} (ownedOf : α → Bool)
    (p1 p2 : SlotMap α) (keys : List Nat)
    (h : ∀ k ∈ keys, p1.get k = p2.get k) :
    owned_count ownedOf p1 keys = owned_count ownedOf p2 keys := by
  unfold owned_count
  rw [List.filter_congr]
  intro k hk
  rw [h k hk]

theorem removeAndDestroy_get_ne {α : Type} (ownedOf : α → Bool)
    (pool : SlotMap α) (keys : List Nat) (k : Nat) (hk : k ∉ keys) :
    (removeAndDestroy ownedOf pool keys).1.get k = pool.get k := by
  induction keys generalizing pool with
  | nil => rfl
  | cons k0 rest ih =>
      simp only [List.mem_cons] at hk
      push_neg at hk
      have h1 : (removeAndDestroy ownedOf (pool.remove k0).2 rest).1.get k =
          (pool.remove k0).2.get k := ih _ hk.2
      have h2 : (pool.remove k0).2.get k = pool.get k := by
        simp only [SlotMap.remove, SlotMap.get]
        exact alistGet_remove_ne _ hk.1
      simp only [removeAndDestroy]
      cases hr : (pool.remove k0).1 with
      | none => simpa [hr] using h1.trans h2
      | some y => cases ho : ownedOf y <;> simp [hr, ho, h1.trans h2]

theorem removeAndDestroy_length {α : Type} (ownedOf : α → Bool)
    (pool : SlotMap α) (keys : List Nat) (h : keys.Nodup) :
    (removeAndDestroy ownedOf pool keys).2.length =
      owned_count ownedOf pool keys := by
  induction keys generalizing pool with
  | nil => rfl
  | cons k0 rest ih =>
      obtain ⟨hk0, hnd⟩ := List.nodup_cons.mp h
      have hcongr : owned_count ownedOf (pool.remove k0).2 rest =
          owned_count ownedOf pool rest := by
        apply owned_count_congr
        intro k hk
        simp only [SlotMap.remove, SlotMap.get]
        exact alistGet_remove_ne _ (fun he => hk0 (he ▸ hk))
      have hrec := ih (pool.remove k0).2 hnd
      have hr1 : (pool.remove k0).1 = pool.get k0 := rfl
      simp only [removeAndDestroy, hr1]
      cases hg : pool.get k0 with
      | none =>
          rw [hrec, hcongr]
          simp [owned_count, List.filter_cons, hg]
      | some y =>
          cases ho : ownedOf y with
          | true =>
              simp [hrec, owned_count, List.filter_cons, hg, ho]
              simpa [owned_count] using hcongr
          | false =>
              simp [hrec, owned_count, List.filter_cons, hg, ho]
              simpa [owned_count] using hcongr

theorem drainDestroy_length {α : Type} (ownedOf : α → Bool)
    (pool : SlotMap α) (entries : List (Nat × List Nat))
    (h : (entries.map Prod.snd).flatten.Nodup) :
    (drainDestroy ownedOf pool entries).2.length =
      owned_count ownedOf pool (entries.map Prod.snd).flatten := by
  induction entries generalizing pool with
  | nil => rfl
  | cons e rest ih =>
      simp only [List.map_cons, List.flatten_cons] at h ⊢
      rw [List.nodup_append] at h
      obtain ⟨h1, h2, hdisj⟩ := h
      have hcongr : owned_count ownedOf
          (removeAndDestroy ownedOf pool e.2).1 (rest.map Prod.snd).flatten =
          owned_count ownedOf pool (rest.map Prod.snd).flatten := by
        apply owned_count_congr
        intro k hk
        exact removeAndDestroy_get_ne _ _ _ _ (fun hmem => hdisj hmem hk)
      simp only [drainDestroy]
      rw [List.length_append, removeAndDestroy_length _ _ _ h1, ih _ h2,
        hcongr]
      simp [owned_count, List.filter_append]

/-- C6: cleanup_per_frames destroys only resources that own their backing
allocation, so externally registered (unowned) entries are never destroyed;
and when the per-frame key lists are duplicate-free (as construction
guarantees), the destruction count equals the number of owned per-frame
instances reachable through the logical maps. -/
theorem cleanup_per_frames_spares_external (m : ImageManager) :
    (∀ img ∈ m.cleanup_per_frames.2.2, img.owned = true) ∧
    (∀ v ∈ m.cleanup_per_frames.2.1, v.owned = true) ∧
    ((m.logical_images.entries.map Prod.snd).flatten.Nodup →
      m.cleanup_per_frames.2.2.length =
        owned_count Image.owned m.images
          (m.logical_images.entries.map Prod.snd).flatten) ∧
    ((m.logical_image_views.entries.map Prod.snd).flatten.Nodup →
      m.cleanup_per_frames.2.1.length =
        owned_count ImageView.owned m.image_views
          (m.logical_image_views.entries.map Prod.snd).flatten) := by
  refine ⟨?_, ?_, ?_, ?_⟩
  · intro img hx
    exact drainDestroy_owned _ _ _ _ hx
  · intro v hx
    exact drainDestroy_owned _ _ _ _ hx
  · intro hnd
    exact drainDestroy_length _ _ _ hnd
  · intro hnd
    exact drainDestroy_length _ _ _ hnd

/-- Per-frame image spec used to instantiate the manager theorems. -/
def demo_spec : ImageSpec :=
  { format := 0
    extent_width := 800
    extent_height := 600
    usage := 0
    mips := 1
    layers := 1
    samples := 1
    resize_policy := .fixed
    lifetime := .perFrame
    initial_layout := .undefined }

/-- Manager holding one owned per-frame image pair (2 replicas) and one
externally registered per-frame image list (2 presentation images). -/
def demo_manager : ImageManager :=
  ((ImageManager.default.create_image demo_spec 2).1.register_external_per_frame
    [100, 101] [200, 201]).1

theorem cleanup_per_frames_spares_external_witness :
    (∀ img ∈ demo_manager.cleanup_per_frames.2.2, img.owned = true) ∧
      demo_manager.cleanup_per_frames.2.2.length =
        owned_count Image.owned demo_manager.images
          (demo_manager.logical_images.entries.map Prod.snd).flatten ∧
      demo_manager.cleanup_per_frames.2.2.length = 2 :=
  ⟨(cleanup_per_frames_spares_external demo_manager).1,
    (cleanup_per_frames_spares_external demo_manager).2.2.1 (by decide),
    by decide⟩

theorem alistGet_append_single_ne {α β : Type} [DecidableEq α] {k k0 : α}
    (v : β) (l : List (α × β)) (h : k0 ≠ k) :
    alistGet k (l ++ [(k0, v)]) = alistGet k l := by
  induction l with
  | nil => simp [alistGet, h]
  | cons hd t ih =>
      obtain ⟨a, b⟩ := hd
      by_cases ha : a = k <;> simp [alistGet, ha, ih]

theorem alistGet_append_last {α β : Type} [DecidableEq α] (k : α) (v : β)
    (l : List (α × β)) (h : ∀ p ∈ l, p.1 ≠ k) :
    alistGet k (l ++ [(k, v)]) = some v := by
  induction l with
  | nil => simp [alistGet]
  | cons hd t ih =>
      obtain ⟨a, b⟩ := hd
      have ha : a ≠ k := h (a, b) (by simp)
      simp only [List.cons_append, alistGet, ha, if_false]
      exact ih (fun p hp => h p (List.mem_cons_of_mem _ hp))

theorem SlotMap.get_insert_self {α : Type} (m : SlotMap α) (v : α)
    (hwf : m.Wf) : (m.insert v).1.get m.nextKey = some v := by
  simp only [SlotMap.insert, SlotMap.get]
  exact alistGet_append_last _ _ _ (fun p hp => Nat.ne_of_lt (hwf p hp))

theorem SlotMap.get_insert_ne {α : Type} (m : SlotMap α) (v : α) {k : Nat}
    (h : k ≠ m.nextKey) : (m.insert v).1.get k = m.get k := by
  simp only [SlotMap.insert, SlotMap.get]
  exact alistGet_append_single_ne _ _ (fun he => h he.symm)

theorem SlotMap.wf_insert {α : Type} (m : SlotMap α) (v : α) (hwf : m.Wf) :
    (m.insert v).1.Wf := by
  intro p hp
  simp only [SlotMap.insert] at hp ⊢
  rcases List.mem_append.mp hp with h1 | h2
  · exact Nat.lt_succ_of_lt (hwf p h1)
  · rw [List.mem_singleton] at h2
    subst h2
    exact Nat.lt_succ_self m.nextKey

theorem insertImages_nextKey (m : SlotMap Image) (n : Nat) :
    (insertImages m n).1.nextKey = m.nextKey + n := by
  induction n generalizing m with
  | zero => rfl
  | succ n ih =>
      simp only [insertImages]
      rw [ih]
      simp only [SlotMap.insert]
      omega

theorem insertImages_wf (m : SlotMap Image) (n : Nat) (hwf : m.Wf) :
    (insertImages m n).1.Wf := by
  induction n generalizing m with
  | zero => exact hwf
  | succ n ih =>
      simp only [insertImages]
      exact ih _ (SlotMap.wf_insert _ _ hwf)

theorem insertImages_keys_length (m : SlotMap Image) (n : Nat) :
    (insertImages m n).2.length = n := by
  induction n generalizing m with
  | zero => rfl
  | succ n ih => simp [insertImages, ih]

theorem insertImages_keys_get (m : SlotMap Image) (n i : Nat) (hi : i < n) :
    (insertImages m n).2.get? i = some (m.nextKey + i) := by
  induction n generalizing m i with
  | zero => omega
  | succ n ih =>
      cases i with
      | zero => simp [insertImages, SlotMap.insert]
      | succ i' =>
          simp only [insertImages, List.get?_cons_succ]
          have heq : m.nextKey + (i' + 1) =
              (m.insert { vk_image := m.nextKey, owned := true }).1.nextKey + i' := by
            simp only [SlotMap.insert]
            omega
          rw [heq]
          exact ih _ i' (by omega)

theorem insertImages_get_preserve (p : SlotMap Image) (n k : Nat)
    (hk : k < p.nextKey) : (insertImages p n).1.get k = p.get k := by
  induction n generalizing p with
  | zero => rfl
  | succ n ih =>
      simp only [insertImages]
      rw [ih _ (by simp only [SlotMap.insert]; omega)]
      exact SlotMap.get_insert_ne _ _ (Nat.ne_of_lt hk)

theorem insertImages_pool_get (m : SlotMap Image) (n i : Nat) (hi : i < n)
    (hwf : m.Wf) :
    (insertImages m n).1.get (m.nextKey + i) =
      some { vk_image := m.nextKey + i, owned := true } := by
  induction n generalizing m i with
  | zero => omega
  | succ n ih =>
      simp only [insertImages]
      cases i with
      | zero =>
          rw [Nat.add_zero,
            insertImages_get_preserve _ _ _ (by simp only [SlotMap.insert]; omega)]
          exact SlotMap.get_insert_self m _ hwf
      | succ i' =>
          have heq : m.nextKey + (i' + 1) =
              (m.insert { vk_image := m.nextKey, owned := true }).1.nextKey + i' := by
            simp only [SlotMap.insert]
            omega
          rw [heq]
          exact ih _ i' (by omega) (SlotMap.wf_insert _ _ hwf)

/-- C8: creating a PerFrame image with replication count N yields a composite
key whose logical entry holds exactly N physical entries; resolving the key at
frame index i returns the i-th created physical image for every i below N and
fails (the expect panic of an invalid index, modelled as none) for every i at
or above N. -/
theorem image_per_frame_resolves (m : ImageManager) (spec : ImageSpec)
    (N i : Nat) (hpf : spec.lifetime = ImageLifetime.perFrame)
    (hwfI : m.images.Wf) (hwfL : m.logical_images.Wf) :
    (m.create_image spec N).2 =
        CompositeImageKey.perFrame m.logical_images.nextKey ∧
    (((m.create_image spec N).1.logical_images.get
        m.logical_images.nextKey).getD []).length = N ∧
    (i < N →
      (m.create_image spec N).1.resolve_image
          (CompositeImageKey.perFrame m.logical_images.nextKey) (.frame i) =
        some { vk_image := m.images.nextKey + i, owned := true }) ∧
    (N ≤ i →
      (m.create_image spec N).1.resolve_image
          (CompositeImageKey.perFrame m.logical_images.nextKey) (.frame i) =
        none) := by
  simp only [ImageManager.create_image, hpf]
  refine ⟨rfl, ?_, ?_, ?_⟩
  · show (((m.logical_images.insert (insertImages m.images N).2).1.get
        m.logical_images.nextKey).getD []).length = N
    rw [SlotMap.get_insert_self _ _ hwfL]
    simp [insertImages_keys_length]
  · intro hi
    show ((((m.logical_images.insert (insertImages m.images N).2).1.get
        m.logical_images.nextKey).bind
          (fun v => v.get? (FrameIndex.frame i).raw)).bind
            (fun k => (insertImages m.images N).1.get k)) =
      some { vk_image := m.images.nextKey + i, owned := true }
    rw [SlotMap.get_insert_self _ _ hwfL]
    simp only [Option.some_bind, FrameIndex.raw]
    rw [insertImages_keys_get _ _ _ hi]
    simp only [Option.some_bind]
    exact insertImages_pool_get _ _ _ hi hwfI
  · intro hge
    show ((((m.logical_images.insert (insertImages m.images N).2).1.get
        m.logical_images.nextKey).bind
          (fun v => v.get? (FrameIndex.frame i).raw)).bind
            (fun k => (insertImages m.images N).1.get k)) = none
    rw [SlotMap.get_insert_self _ _ hwfL]
    simp only [Option.some_bind, FrameIndex.raw]
    have hnone : (insertImages m.images N).2.get? i = none :=
      List.get?_eq_none.mpr (by rw [insertImages_keys_length]; exact hge)
    rw [hnone]
    rfl

theorem image_per_frame_resolves_witness :
    (ImageManager.default.create_image demo_spec 2).2 =
        CompositeImageKey.perFrame 0 ∧
      (ImageManager.default.create_image demo_spec 2).1.resolve_image
          (CompositeImageKey.perFrame 0) (.frame 1) =
        some { vk_image := 1, owned := true } ∧
      (ImageManager.default.create_image demo_spec 2).1.resolve_image
          (CompositeImageKey.perFrame 0) (.frame 2) = none :=
  ⟨(image_per_frame_resolves ImageManager.default demo_spec 2 1 rfl
      (by decide) (by decide)).1,
    (image_per_frame_resolves ImageManager.default demo_spec 2 1 rfl
      (by decide) (by decide)).2.2.1 (by decide),
    (image_per_frame_resolves ImageManager.default demo_spec 2 2 rfl
      (by decide) (by decide)).2.2.2 (by decide)⟩

/-! Alias registry, translated from render/framegraph/alias/registry.rs and
render/framegraph/alias/data.rs.  The f32 scale factors are modelled as exact
rationals; the f32-to-u32 size cast is exact rational truncation toward zero,
clamped at zero. -/

/-- Translation of ImageFormat from render/framegraph/alias/data.rs. -/
inductive ImageFormat : Type
  | swapchainColor
  | depth
  | hdrColor
deriving DecidableEq

/-- Translation of ImageSize from render/framegraph/alias/data.rs. -/
inductive ImageSize : Type
  | absolute (width height : Nat)
  | swapchainRelative (scale : ℚ)
  | relative (a : ImageAlias) (scale : ℚ)
deriving DecidableEq

/-- Translation of ImageDesc from render/framegraph/alias/data.rs; usage and
sample-count flags carried as numbers. -/
structure ImageDesc where
  format : ImageFormat
  size : ImageSize
  usage : VkFlags
  lifetime : ImageLifetime
  samples : Nat
deriving DecidableEq

/-- Translation of ImageKeys from render/framegraph/alias/data.rs: the image
and view keys of one external physical entry. -/
structure ImageKeys where
  image : Nat
  view : Nat
deriving DecidableEq

/-- Composite image keys of the registry iteration in
render/framegraph/alias/registry.rs, which has an External variant for
foreign-owned entries. -/
inductive RegCompositeImageKey : Type
  | global (k : Nat)
  | perFrame (k : Nat)
  | external (k : Nat)
deriving DecidableEq

/-- Composite image-view keys of the registry iteration. -/
inductive RegCompositeImageViewKey : Type
  | global (k : Nat)
  | perFrame (k : Nat)
  | external (k : Nat)
deriving DecidableEq

/-- Embedding of the manager composite image keys into the registry
iteration keys. -/
def regKeyOf : CompositeImageKey → RegCompositeImageKey
  | .global k => .global k
  | .perFrame k => .perFrame k

/-- Embedding of the manager composite image-view keys into the registry
iteration keys. -/
def regViewKeyOf : CompositeImageViewKey → RegCompositeImageViewKey
  | .global k => .global k
  | .perFrame k => .perFrame k

/-- Translation of AliasRegistry from render/framegraph/alias/registry.rs. -/
structure AliasRegistry where
  declared : List (ImageAlias × ImageDesc)
  externals : List (ImageAlias × List ImageKeys)
deriving DecidableEq

/-- Translation of AliasRegistry::default. -/
def AliasRegistry.empty : AliasRegistry := ⟨[], []⟩

/-- Build-time configuration error of declare_image; the anyhow bail carrying
the conflicting-descriptions message is modelled as a structured variant. -/
inductive AliasError : Type
  | conflictingDeclaration
deriving DecidableEq

/-- Translation of AliasRegistry::declare_image from
render/framegraph/alias/registry.rs, returning the post-state and the Result
of the &mut self method: redeclaring with an identical description is a no-op
Ok, a differing description bails and leaves the registry untouched, and a
fresh alias is inserted. -/
def AliasRegistry.declare_image (reg : AliasRegistry) (a : ImageAlias)
    (desc : ImageDesc) : AliasRegistry × Except AliasError Unit :=
  match alistGet a reg.declared with
  | some existing =>
      if existing ≠ desc then (reg, .error .conflictingDeclaration)
      else (reg, .ok ())
  | none => ({ reg with declared := alistSet a desc reg.declared }, .ok ())

/-- Translation of AliasRegistry::declare_external_image from
render/framegraph/alias/registry.rs: wrap the handle pairs and insert them,
unconditionally replacing any previous external declaration for the alias. -/
def AliasRegistry.declare_external_image (reg : AliasRegistry) (a : ImageAlias)
    (keys : List (Nat × Nat)) : AliasRegistry × Except AliasError Unit :=
  let image_keys : List ImageKeys := keys.map (fun kv => ⟨kv.1, kv.2⟩)
  ({ reg with externals := alistSet a image_keys reg.externals }, .ok ())

/-- Translation of vk::Extent2D. -/
structure VkExtent2D where
  width : Nat
  height : Nat
deriving DecidableEq

/-- Translation of ImageResolveContext from
render/framegraph/alias/registry.rs; the resolve_alias callback supplies the
base extent for alias-relative sizes. -/
structure ImageResolveContext where
  swapchain_extent : VkExtent2D
  swapchain_format : Nat
  resolve_alias : ImageAlias → VkExtent2D
  default_resize_policy : ResizePolicy
  default_initial_layout : VkImageLayout
  frame_count : Nat

def FORMAT_D16_UNORM : Nat := 124
def FORMAT_D32_SFLOAT : Nat := 126
def FORMAT_D24_UNORM_S8_UINT : Nat := 129
def FORMAT_D32_SFLOAT_S8_UINT : Nat := 130
def FORMAT_R16G16B16A16_SFLOAT : Nat := 97

/-- Translation of the (base as f32 * scale) as u32 size computation: exact
rational product truncated toward zero and clamped at zero, computed on the
raw numerator and denominator. -/
def scale_extent (w : Nat) (s : ℚ) : Nat := ((s.num * w) / (s.den : Int)).toNat

/-- Translation of create_image_spec from
render/framegraph/alias/registry.rs. -/
def create_image_spec (desc : ImageDesc) (ctx : ImageResolveContext) :
    ImageSpec :=
  let format :=
    match desc.format with
    | .swapchainColor => ctx.swapchain_format
    | .depth => FORMAT_D32_SFLOAT
    | .hdrColor => FORMAT_R16G16B16A16_SFLOAT
  let extent2d :=
    match desc.size with
    | .absolute w h => VkExtent2D.mk w h
    | .swapchainRelative scale =>
        ⟨scale_extent ctx.swapchain_extent.width scale,
          scale_extent ctx.swapchain_extent.height scale⟩
    | .relative a scale =>
        let base := ctx.resolve_alias a
        ⟨scale_extent base.width scale, scale_extent base.height scale⟩
  let resize_policy :=
    match desc.size with
    | .absolute _ _ => ResizePolicy.fixed
    | _ => ctx.default_resize_policy
  { format := format
    extent_width := extent2d.width
    extent_height := extent2d.height
    usage := desc.usage
    mips := 1
    layers := 1
    samples := desc.samples
    resize_policy := resize_policy
    lifetime := desc.lifetime
    initial_layout := ctx.default_initial_layout }

def VIEW_TYPE_2D : Nat := 1
def VIEW_TYPE_2D_ARRAY : Nat := 5
def IMAGE_ASPECT_STENCIL : VkFlags := 0x4

/-- Translation of derive_view_type from
render/framegraph/alias/registry.rs. -/
def derive_view_type (layers : Nat) : Nat :=
  match layers with
  | 1 => VIEW_TYPE_2D
  | _ => VIEW_TYPE_2D_ARRAY

/-- Translation of derive_aspect_mask from
render/framegraph/alias/registry.rs. -/
def derive_aspect_mask (format : Nat) : VkFlags :=
  if format = FORMAT_D32_SFLOAT ∨ format = FORMAT_D16_UNORM then
    IMAGE_ASPECT_DEPTH
  else if format = FORMAT_D24_UNORM_S8_UINT ∨
      format = FORMAT_D32_SFLOAT_S8_UINT then
    IMAGE_ASPECT_DEPTH ||| IMAGE_ASPECT_STENCIL
  else IMAGE_ASPECT_COLOR

/-- Translation of ImageViewTarget from image/spec.rs. -/
inductive ImageViewTarget : Type
  | global (k : Nat)
  | perFrame (k : Nat)
deriving DecidableEq

/-- Fields of ImageViewSpec from image/spec.rs used by view creation. -/
structure ImageViewSpec where
  target : ImageViewTarget
  view_type : Nat
  format : Nat
  aspect_mask : VkFlags
deriving DecidableEq

/-- Translation of create_image_view_spec from
render/framegraph/alias/registry.rs. -/
def create_image_view_spec (image_key : CompositeImageKey)
    (spec : ImageSpec) : ImageViewSpec :=
  { target :=
      match image_key with
      | .global k => .global k
      | .perFrame k => .perFrame k
    view_type := derive_view_type spec.layers
    format := spec.format
    aspect_mask := derive_aspect_mask spec.format }

/-- View-insertion loop used by the PerFrame arm of create_image_view. -/
def insertViews (vs : SlotMap ImageView) : Nat → SlotMap ImageView × List Nat
  | 0 => (vs, [])
  | n + 1 =>
      let r := vs.insert { vk_image_view := vs.nextKey, owned := true }
      let rest := insertViews r.1 n
      (rest.1, r.2 :: rest.2)

/-- Translation of ImageManager::create_image_view from image/manager.rs: a
Global target creates one owned view over the referenced image (the lookup
panic on a missing image is modelled as none); a PerFrame target looks up
every replica below frame_count (a panic on any missing replica is modelled
as none; the lookups touch only the image pools, so checking them up front is
observationally the interleaved source loop) and creates one owned view per
replica under a fresh logical key. -/
def ImageManager.create_image_view (m : ImageManager) (spec : ImageViewSpec)
    (frame_count : Nat) : Option (ImageManager × CompositeImageViewKey) :=
  match spec.target with
  | .global k =>
      (m.image_global k).map (fun _ =>
        let r := m.image_views.insert
          { vk_image_view := m.image_views.nextKey, owned := true }
        ({ m with image_views := r.1 }, .global r.2))
  | .perFrame lk =>
      if ∀ f, f < frame_count →
          ((m.image_per_frame lk (FrameIndex.frame f)).isSome = true) then
        let r := insertViews m.image_views frame_count
        let lv := m.logical_image_views.insert r.2
        some ({ m with image_views := r.1, logical_image_views := lv.1 },
          .perFrame lv.2)
      else none

/-- Translation of ResolvedRegistry from
render/framegraph/alias/resolved.rs, over the registry-iteration keys. -/
structure ResolvedRegistry where
  images : List (ImageAlias × RegCompositeImageKey)
  image_views : List (ImageAlias × RegCompositeImageViewKey)
deriving DecidableEq

/-- Loop of AliasRegistry::resolve over the declared aliases: compute the
concrete spec of each description, create the image and its view through the
image manager, and record both keys. -/
def resolveDeclared (ctx : ImageResolveContext) (mgr : ImageManager)
    (images : List (ImageAlias × RegCompositeImageKey))
    (views : List (ImageAlias × RegCompositeImageViewKey)) :
    List (ImageAlias × ImageDesc) →
      Option (ImageManager × List (ImageAlias × RegCompositeImageKey) ×
        List (ImageAlias × RegCompositeImageViewKey))
  | [] => some (mgr, images, views)
  | (a, desc) :: rest =>
      let spec := create_image_spec desc ctx
      let r1 := mgr.create_image spec ctx.frame_count
      let view_spec := create_image_view_spec r1.2 spec
      match r1.1.create_image_view view_spec ctx.frame_count with
      | none => none
      | some out =>
          resolveDeclared ctx out.1
            (alistSet a (regKeyOf r1.2) images)
            (alistSet a (regViewKeyOf out.2) views) rest

/-- Translation of AliasRegistry::resolve from
render/framegraph/alias/registry.rs: resolve every declared alias in
declaration order (alias-relative sizes through the resolve_alias callback),
then copy the external aliases through, inserting one entry per listed key so
the last key of a list wins.  Allocator and driver failures are outside the
model; the per-frame lookup panics of view creation surface as none. -/
def AliasRegistry.resolve (reg : AliasRegistry) (mgr : ImageManager)
    (ctx : ImageResolveContext) : Option (ImageManager × ResolvedRegistry) :=
  match resolveDeclared ctx mgr [] [] reg.declared with
  | none => none
  | some out =>
      let images2 := reg.externals.foldl
        (fun acc e => e.2.foldl
          (fun acc2 k =>
            alistSet e.1 (RegCompositeImageKey.external k.image) acc2) acc)
        out.2.1
      let views2 := reg.externals.foldl
        (fun acc e => e.2.foldl
          (fun acc2 k =>
            alistSet e.1 (RegCompositeImageViewKey.external k.view) acc2) acc)
        out.2.2
      some (out.1, ⟨images2, views2⟩)

/-- C5: redeclaring an alias with a description identical to the existing one
succeeds and leaves the registry unchanged, while redeclaring it with a
differing description fails with the conflicting-declaration error and leaves
the original declaration in place (the returned registry is the input
registry in both cases). -/
theorem declare_image_idempotent_or_conflict (reg : AliasRegistry)
    (a : ImageAlias) (desc existing : ImageDesc)
    (h : alistGet a reg.declared = some existing) :
    (existing = desc → reg.declare_image a desc = (reg, .ok ())) ∧
    (existing ≠ desc →
      reg.declare_image a desc = (reg, .error .conflictingDeclaration)) := by
  constructor
  · intro he
    simp [AliasRegistry.declare_image, h, he]
  · intro hne
    simp [AliasRegistry.declare_image, h, hne]

/-- Rational one built as an explicit record so that kernel evaluation of
concrete scale computations reduces. -/
def ratOne : ℚ := ⟨1, 1, by decide, by decide⟩

def demo_desc : ImageDesc :=
  { format := .swapchainColor
    size := .swapchainRelative ratOne
    usage := 16
    lifetime := .perFrame
    samples := 1 }

def demo_desc2 : ImageDesc := { demo_desc with samples := 4 }

def demo_registry : AliasRegistry := ⟨[(.forwardColor, demo_desc)], []⟩

theorem declare_image_idempotent_or_conflict_witness :
    demo_registry.declare_image .forwardColor demo_desc =
        (demo_registry, .ok ()) ∧
      demo_registry.declare_image .forwardColor demo_desc2 =
        (demo_registry, .error .conflictingDeclaration) :=
  ⟨(declare_image_idempotent_or_conflict demo_registry .forwardColor demo_desc
      demo_desc (by decide)).1 rfl,
    (declare_image_idempotent_or_conflict demo_registry .forwardColor
      demo_desc2 demo_desc (by decide)).2 (by decide)⟩

/-- C10: declaring an external alias always succeeds, makes no idempotence or
conflict check, and unconditionally replaces any previously registered handle
list for that alias with the new one (for any pair of handle lists), leaving
owned declarations untouched. -/
theorem declare_external_image_replaces (reg : AliasRegistry) (a : ImageAlias)
    (keys : List (Nat × Nat)) :
    (reg.declare_external_image a keys).2 = .ok () ∧
    alistGet a (reg.declare_external_image a keys).1.externals =
      some (keys.map (fun kv => ⟨kv.1, kv.2⟩)) ∧
    (reg.declare_external_image a keys).1.declared = reg.declared := by
  refine ⟨rfl, ?_, rfl⟩
  simp [AliasRegistry.declare_external_image, alistGet_set_self]

theorem SlotMap.insert_snd {α : Type} (m : SlotMap α) (v : α) :
    (m.insert v).2 = m.nextKey := rfl

theorem create_image_wf (m : ImageManager) (spec : ImageSpec) (n : Nat)
    (hI : m.images.Wf) (hL : m.logical_images.Wf) :
    (m.create_image spec n).1.images.Wf ∧
      (m.create_image spec n).1.logical_images.Wf := by
  cases hlt : spec.lifetime with
  | global =>
      simp only [ImageManager.create_image, hlt]
      exact ⟨SlotMap.wf_insert _ _ hI, hL⟩
  | perFrame =>
      simp only [ImageManager.create_image, hlt]
      exact ⟨insertImages_wf _ _ hI, SlotMap.wf_insert _ _ hL⟩

theorem create_image_view_preserves (m : ImageManager) (spec : ImageViewSpec)
    (n : Nat) (out : ImageManager × CompositeImageViewKey)
    (h : m.create_image_view spec n = some out) :
    out.1.images = m.images ∧ out.1.logical_images = m.logical_images := by
  cases ht : spec.target with
  | global k =>
      simp only [ImageManager.create_image_view, ht] at h
      cases hg : m.image_global k with
      | none => rw [hg] at h; simp at h
      | some img =>
          rw [hg] at h
          simp only [Option.map_some', Option.some.injEq] at h
          rw [← h]
          exact ⟨rfl, rfl⟩
  | perFrame lk =>
      simp only [ImageManager.create_image_view, ht] at h
      by_cases hc : ∀ f, f < n →
          ((m.image_per_frame lk (FrameIndex.frame f)).isSome = true)
      · rw [if_pos hc] at h
        simp only [Option.some.injEq] at h
        rw [← h]
        exact ⟨rfl, rfl⟩
      · rw [if_neg hc] at h
        simp at h

theorem isSome_if_pos {α : Type} {C : Prop} [Decidable C] {x : α} (h : C) :
    (if C then some x else none).isSome = true := by
  rw [if_pos h]
  rfl

theorem create_then_view_isSome (m : ImageManager) (spec : ImageSpec)
    (n : Nat) (hI : m.images.Wf) (hL : m.logical_images.Wf) :
    ((m.create_image spec n).1.create_image_view
        (create_image_view_spec (m.create_image spec n).2 spec) n).isSome =
      true := by
  cases hlt : spec.lifetime with
  | global =>
      simp only [ImageManager.create_image, hlt, create_image_view_spec,
        ImageManager.create_image_view, ImageManager.image_global,
        SlotMap.insert_snd, Option.isSome_map']
      rw [SlotMap.get_insert_self _ _ hI]
      rfl
  | perFrame =>
      simp only [ImageManager.create_image, hlt, create_image_view_spec,
        ImageManager.create_image_view, SlotMap.insert_snd]
      apply isSome_if_pos
      intro f hf
      simp only [ImageManager.image_per_frame, ImageManager.image_global,
        FrameIndex.raw]
      rw [SlotMap.get_insert_self _ _ hL]
      simp only [Option.some_bind]
      rw [insertImages_keys_get _ _ _ hf]
      simp only [Option.some_bind]
      rw [insertImages_pool_get _ _ _ hf hI]
      rfl

theorem resolveDeclared_isSome (ctx : ImageResolveContext)
    (decls : List (ImageAlias × ImageDesc)) :
    ∀ (mgr : ImageManager)
      (images : List (ImageAlias × RegCompositeImageKey))
      (views : List (ImageAlias × RegCompositeImageViewKey)),
      mgr.images.Wf → mgr.logical_images.Wf →
      (resolveDeclared ctx mgr images views decls).isSome = true := by
  induction decls with
  | nil =>
      intro mgr images views hI hL
      rfl
  | cons d rest ih =>
      intro mgr images views hI hL
      obtain ⟨a, desc⟩ := d
      simp only [resolveDeclared]
      have hv := create_then_view_isSome mgr (create_image_spec desc ctx)
        ctx.frame_count hI hL
      cases hcv : (mgr.create_image (create_image_spec desc ctx)
            ctx.frame_count).1.create_image_view
          (create_image_view_spec
            (mgr.create_image (create_image_spec desc ctx) ctx.frame_count).2
            (create_image_spec desc ctx)) ctx.frame_count with
      | none =>
          rw [hcv] at hv
          simp at hv
      | some out =>
          have hpres := create_image_view_preserves _ _ _ _ hcv
          have hwf := create_image_wf mgr (create_image_spec desc ctx)
            ctx.frame_count hI hL
          exact ih _ _ _ (by rw [hpres.1]; exact hwf.1)
            (by rw [hpres.2]; exact hwf.2)

/-- C7 amended: alias resolution iterates the declared aliases in declaration
order without any dependency analysis; an alias-relative size is computed by
the caller-supplied resolve_alias callback of the context, independent of any
resolution order; cyclic alias-relative declarations are not detected, no
unresolvable-size-dependency error exists, and resolution always produces a
registry. -/
theorem resolve_sizes_from_callback (reg : AliasRegistry)
    (mgr : ImageManager) (ctx : ImageResolveContext)
    (hI : mgr.images.Wf) (hL : mgr.logical_images.Wf) :
    (reg.resolve mgr ctx).isSome = true ∧
    (∀ (a : ImageAlias) (scale : ℚ) (desc : ImageDesc),
      desc.size = ImageSize.relative a scale →
      (create_image_spec desc ctx).extent_width =
          scale_extent (ctx.resolve_alias a).width scale ∧
        (create_image_spec desc ctx).extent_height =
          scale_extent (ctx.resolve_alias a).height scale) := by
  constructor
  · simp only [AliasRegistry.resolve]
    have h := resolveDeclared_isSome ctx reg.declared mgr [] [] hI hL
    cases hres : resolveDeclared ctx mgr [] [] reg.declared with
    | none =>
        rw [hres] at h
        simp at h
    | some out => rfl
  · intro a scale desc hsize
    simp [create_image_spec, hsize]

def demo_ctx : ImageResolveContext :=
  { swapchain_extent := ⟨640, 480⟩
    swapchain_format := 50
    resolve_alias := fun _ => ⟨320, 240⟩
    default_resize_policy := .swapchain
    default_initial_layout := .undefined
    frame_count := 2 }

def demo_alias_registry : AliasRegistry :=
  ⟨[(.forwardColor,
      { format := .hdrColor
        size := .relative .swapchainImage ratOne
        usage := 16
        lifetime := .perFrame
        samples := 1 })], []⟩

theorem resolve_sizes_from_callback_witness :
    (demo_alias_registry.resolve ImageManager.default demo_ctx).isSome =
        true ∧
      (create_image_spec
          { format := .hdrColor
            size := .relative .swapchainImage ratOne
            usage := 16
            lifetime := .perFrame
            samples := 1 } demo_ctx).extent_width =
        scale_extent (demo_ctx.resolve_alias .swapchainImage).width ratOne :=
  ⟨(resolve_sizes_from_callback demo_alias_registry ImageManager.default
      demo_ctx (by decide) (by decide)).1,
    ((resolve_sizes_from_callback demo_alias_registry ImageManager.default
      demo_ctx (by decide) (by decide)).2 .swapchainImage ratOne _ rfl).1⟩

/-- Declaration set whose alias-relative sizes form a cycle: each of the two
aliases is sized relative to the other. -/
def cyclic_registry : AliasRegistry :=
  ⟨[(.forwardColor,
      { format := .hdrColor
        size := .relative .depthBuffer ratOne
        usage := 16
        lifetime := .perFrame
        samples := 1 }),
    (.depthBuffer,
      { format := .depth
        size := .relative .forwardColor ratOne
        usage := 32
        lifetime := .perFrame
        samples := 1 })], []⟩

/-- C7 fails on the code: resolving a declaration set whose alias-relative
size dependencies form a cycle succeeds (each base extent comes from the
callback of the resolve context), instead of failing with an
unresolvable-size-dependency error. -/
theorem resolve_cycle_succeeds :
    (cyclic_registry.resolve ImageManager.default demo_ctx).isSome = true := by
  decide

end Skeleton
